import Mathlib

set_option maxHeartbeats 1000000

/-!
Verification development for the USCIS case-status poller
(src/unnamed/part_001, first evolution; src/personal/USCISCaseStatus/app.js).

The moment.js capability is modelled by `MomentCap`: `parse` is
`moment(s, "MMM DD  YYYY")` (returning `none` for an invalid moment) and
`fmt` is `format("dddd, MMMM Do YYYY")` on a valid timestamp.  A moment
value is either a valid timestamp or the invalid moment; formatting the
invalid moment yields the literal string "Invalid date" and its `unix()`
is NaN (modelled as `none`).
-/

/-- A moment.js value: a valid epoch timestamp or the invalid moment. -/
inductive Moment where
  | valid (t : Nat)
  | invalid
deriving DecidableEq, Repr

/-- External moment.js capability: the fixed-format date parser and the
"dddd, MMMM Do YYYY" formatter for valid timestamps. -/
structure MomentCap where
  parse : String → Option Nat
  fmt : Nat → String

/-- `m.format("dddd, MMMM Do YYYY")`: the invalid moment formats to
"Invalid date". -/
def fmtMoment (cap : MomentCap) : Moment → String
  | .valid t => cap.fmt t
  | .invalid => "Invalid date"

/-- `m.unix()`: NaN (none) for the invalid moment. -/
def unixOf : Moment → Option Nat
  | .valid t => some t
  | .invalid => none

/-- The object returned by `utils.getDate`: `{ date: ..., string: ... }`. -/
structure DateObj where
  date : Moment
  str : String
deriving DecidableEq, Repr

/-- JavaScript `raw.split(" ")[0]`: the characters before the first
space (the whole string when it has no space, empty when it starts with
one). -/
def firstWord (raw : String) : String :=
  ⟨raw.data.takeWhile (fun c => c != ' ')⟩

/-- The leading comma-delimited token of the body text, as computed in
`utils.getDate`: `data.split(",").slice(0,2).join(", ").slice(3)`. -/
def dateToken (data : String) : String :=
  (String.intercalate ", " ((data.splitOn ",").take 2)).drop 3

/-- `utils.getDate(data)` (src/unnamed/part_001 lines 128-143).
`data = none` models the `utils.getDate()` call with an undefined
argument (the transport-failure path): `data.split` throws, the catch
substitutes `moment()` (the current clock).  For a present string the
token is parsed with `moment(tok, "MMM DD  YYYY")`, which yields the
invalid moment (it does not throw) when the token does not parse. -/
def getDate (cap : MomentCap) (clock : Nat) (data : Option String) : DateObj :=
  match data with
  | none => ⟨Moment.valid clock, fmtMoment cap (Moment.valid clock)⟩
  | some s =>
    match cap.parse (dateToken s) with
    | some t => ⟨Moment.valid t, fmtMoment cap (Moment.valid t)⟩
    | none => ⟨Moment.invalid, fmtMoment cap Moment.invalid⟩

/-- An apostrophe character, used inside two taxonomy headings. -/
def apos : String := String.singleton (Char.ofNat 39)

/-- The `titleToType` mapping (src/unnamed/part_001 lines 82-98). -/
def titleToType : List (String × String) :=
  [ ("Biometrics Appointment Was Scheduled", "BIO"),
    ("Case Was Received and A Receipt Notice Was Emailed", "NOTICE"),
    ("Decision Notice Mailed", "APPROVED"),
    ("Request for Additional Evidence Was Mailed", "EVIDENCE_REQUEST"),
    ("Card Was Delivered To Me By The Post Office", "CARD_ISSUED"),
    ("Interview Was Scheduled", "INTERVIEW"),
    ("Withdrawal Acknowledgement Notice Was Sent", "WITHDRAWN"),
    ("Notice Explaining USCIS" ++ apos ++ " Actions Was Mailed", "EXPLAIN"),
    ("Card Is Being Produced", "CARD_ISSUED"),
    ("Case Approved", "APPROVED"),
    ("Case Was Approved", "APPROVED"),
    ("Response To USCIS" ++ apos ++ " Request For Evidence Was Received",
      "EVIDENCE_REQUEST"),
    ("Card Was Produced", "CARD_ISSUED"),
    ("Case Was Suspended Because My Fee Was Returned by My Bank", "SUSPENDED"),
    ("Case Rejected Because I Sent An Incorrect Fee", "REJECTED") ]

/-- `getType` inside `utils.infoParser`: exact-match lookup in
`titleToType`; a miss logs "unknown key" with the key and yields
"UNKNOWN".  The second component is the console diagnostic output. -/
def getType (key : String) : String × List String :=
  match titleToType.find? (fun p => p.1 == key) with
  | some p => (p.2, [])
  | none => ("UNKNOWN", ["unknown key " ++ key])

/-- The `data` sub-object of a parsed record: `{ raw: ..., heading: ... }`.
Fields are optional so that the empty object `{}` of the failure paths is
representable. -/
structure RawData where
  raw : Option String
  heading : Option String
deriving DecidableEq, Repr

/-- The object produced by `utils.infoParser`. -/
structure Info where
  data : RawData
  type : String
  date : DateObj
deriving DecidableEq, Repr

/-- `utils.infoParser(text, title)` (src/unnamed/part_001 lines 145-164),
together with its console diagnostics. -/
def infoParser (cap : MomentCap) (clock : Nat) (text title : String) :
    Info × List String :=
  let t := getType title
  (⟨⟨some text, some title⟩, t.1, getDate cap clock (some text)⟩, t.2)

/-- The error categories of `utils.getErrorType`. -/
inductive ErrType where
  | BLOCKED
  | NOT_FOUND
  | UNKNOWN
deriving DecidableEq, Repr

/-- The projections of the failure DOM that `utils.getErrorType` reads:
the first `label` element's `for` attribute
(`_.get(select(dom, "label"), "0.attribs.for", null)`) and the raw text of
the first `#formErrorMessages h4` child
(`_.get(select(dom, "#formErrorMessages h4"), "0.children.0.raw")`, no
default, so it can be undefined). -/
structure ErrDom where
  labelFor : Option String
  errorHeadingRaw : Option String
deriving DecidableEq, Repr

/-- `utils.getErrorType(dom)` (src/unnamed/part_001 lines 172-190).
`Except.error` models a thrown exception: when the first label is
`receipt_number` but there is no error-message heading,
`_.get(error, "0.children.0.raw")` is undefined and `.split(" ")` throws a
TypeError.  The list is the console diagnostic output. -/
def getErrorType (dom : ErrDom) : Except String (ErrType × List String) :=
  if dom.labelFor = some "accessviolation" then
    Except.ok (ErrType.BLOCKED, [])
  else if dom.labelFor = some "receipt_number" then
    match dom.errorHeadingRaw with
    | none => Except.error "TypeError: cannot read property split of undefined"
    | some raw =>
      if firstWord raw = "Validation" then
        Except.ok (ErrType.NOT_FOUND, [])
      else Except.ok (ErrType.UNKNOWN, ["unknown error type"])
  else Except.ok (ErrType.UNKNOWN, ["unknown error type"])

/-- The classified outcome of the extraction capability (`extractInfo`'s
callback): a failure with an error type, or extracted `(text, title)`. -/
inductive ExtractResult where
  | fail (etype : ErrType)
  | ok (text title : String)
deriving DecidableEq, Repr

/-- One result record as produced by `utils.retrieveCaseStatus` and
accumulated in `results`.  All fields are optional except `type`: the
NOT_FOUND branch replaces the record by the bare object
`_.extend({type: "NEXIST"})`, which has only `type`. -/
structure CaseRec where
  caseNum : Option String
  type : String
  date : Option DateObj
  data : Option RawData
deriving DecidableEq, Repr

/-- What one `retrieveCaseStatus` call delivers: the error argument of its
callback (always null in the source), the result record, and whether the
call set the global `BLOCKED` flag. -/
structure LookupOut where
  err : Option String
  record : CaseRec
  blockSignal : Bool
deriving DecidableEq, Repr

/-- The `defaultReturn` object of `retrieveCaseStatus`:
`{caseNum, type: "FAILED", date: utils.getDate(), data: {}}`. -/
def defaultReturn (cap : MomentCap) (clock : Nat) (caseNum : String) : CaseRec :=
  ⟨some caseNum, "FAILED", some (getDate cap clock none), some ⟨none, none⟩⟩

/-- `utils.retrieveCaseStatus(caseNum, callback)`
(src/unnamed/part_001 lines 228-272).  `outcome = none` is a transport
error (`err` truthy in the request callback); otherwise the classified
extraction outcome.  Every branch invokes the callback exactly once with
a null error, which is why the result is a total function into
`LookupOut` with `err = none`. -/
def retrieveCaseStatus (cap : MomentCap) (clock : Nat)
    (outcome : Option ExtractResult) (caseNum : String) : LookupOut :=
  match outcome with
  | none => ⟨none, defaultReturn cap clock caseNum, false⟩
  | some (.fail .BLOCKED) => ⟨none, defaultReturn cap clock caseNum, true⟩
  | some (.fail .NOT_FOUND) => ⟨none, ⟨none, "NEXIST", none, none⟩, false⟩
  | some (.fail .UNKNOWN) => ⟨none, defaultReturn cap clock caseNum, false⟩
  | some (.ok text title) =>
    let info := (infoParser cap clock text title).1
    ⟨none, ⟨some caseNum, info.type, some info.date, some info.data⟩, false⟩

/-- `Const.caseNumLength` from the source. -/
def Const.caseNumLength : Nat := 10

/-- Big-endian decimal digits with explicit fuel; with fuel at least the
digit count this is the usual decimal expansion (single digit `[n]` for
`n < 10`, otherwise the digits of `n / 10` followed by `n % 10`). -/
def toDigitsBE : Nat → Nat → List Nat
  | 0, _ => []
  | fuel + 1, n => if n < 10 then [n] else toDigitsBE fuel (n / 10) ++ [n % 10]

/-- The decimal digits of `n` (fuel `n + 1` always suffices). -/
def digitsOf (n : Nat) : List Nat := toDigitsBE (n + 1) n

/-- JavaScript `num + ""` for a non-negative integer: its decimal
representation. -/
def natToString (n : Nat) : String := ⟨(digitsOf n).map Nat.digitChar⟩

/-- The `while (s.length < size) s = "0" + s` loop of `utils.pad`, with
explicit fuel (each iteration grows the string by one, so `size` many
iterations always suffice). -/
def padGo (size : Nat) : Nat → String → String
  | 0, s => s
  | fuel + 1, s => if s.length < size then padGo size fuel ("0" ++ s) else s

/-- `utils.pad(num, size)` (src/unnamed/part_001 lines 101-107). -/
def pad (num size : Nat) : String := padGo size size (natToString num)

/-- `utils.getParams(prefix, start, number)`
(src/unnamed/part_001 lines 442-446): the identifier generator. -/
def getParams (pfx : String) (start number : Nat) : List String :=
  (List.range number).map (fun index => pfx ++ pad (start + index) Const.caseNumLength)

/-- The record delivered for one identifier under the capability outcome
environment `env`. -/
def lookupRec (cap : MomentCap) (clock : Nat) (env : String → Option ExtractResult)
    (id : String) : CaseRec :=
  (retrieveCaseStatus cap clock (env id) id).record

/-- Whether looking up `id` sets the global `BLOCKED` flag. -/
def lookupBlocks (cap : MomentCap) (clock : Nat) (env : String → Option ExtractResult)
    (id : String) : Bool :=
  (retrieveCaseStatus cap clock (env id) id).blockSignal

/-- Whether some identifier of a batch raises the block signal. -/
def signalIn (cap : MomentCap) (clock : Nat) (env : String → Option ExtractResult)
    (ids : List String) : Bool :=
  ids.any (lookupBlocks cap clock env)

/-- The observable outcome of the batch scheduler: the identifiers it
submitted to `retrieveCaseStatus` (in submission order), the final
accumulated result list, and the final `BLOCKED` flag. -/
structure SchedOut where
  issued : List String
  final : List CaseRec
  blocked : Bool
deriving DecidableEq, Repr

/-- `utils.recursiveHelper(data, current, acc, callback)`
(src/unnamed/part_001 lines 401-433), with explicit fuel for the batch
recursion (the source recurses until `current >= end || BLOCKED`; with
`intervalSize >= 1`, `end - current` batches always suffice, and on fuel
exhaustion we return the same shape as the stop branch).  Each batch maps
`retrieveCaseStatus` over `getParams(prefix, current, intervalSize)`,
ORs the block signals into the global flag, appends all batch records to
the accumulator (`async.map` hands back `err = null` since every lookup
succeeds), and advances `current` by `intervalSize` only in the
batch-completion callback. -/
def recursiveHelper (cap : MomentCap) (clock : Nat)
    (env : String → Option ExtractResult) (pfx : String)
    (intervalSize endNum : Nat) :
    Nat → Nat → List CaseRec → Bool → SchedOut
  | 0, _, acc, blocked => ⟨[], acc, blocked⟩
  | fuel + 1, current, acc, blocked =>
    if endNum ≤ current ∨ blocked then ⟨[], acc, blocked⟩
    else
      let params := getParams pfx current intervalSize
      let blocked2 := blocked || signalIn cap clock env params
      let rest := recursiveHelper cap clock env pfx intervalSize endNum fuel
        (current + intervalSize)
        (acc ++ params.map (lookupRec cap clock env)) blocked2
      ⟨params ++ rest.issued, rest.final, rest.blocked⟩

/-- `run(options, callback)` (src/unnamed/part_001 lines 468-487): computes
`end = start + total`, drives `recursiveHelper` from `start` with an empty
accumulator and a clear flag, and invokes the final callback with the
error handed back by `recursiveHelper` — which is always null; the source
performs no validation of `start` or `total`. -/
def run (cap : MomentCap) (clock : Nat) (env : String → Option ExtractResult)
    (pfx : String) (startNum total limit fuel : Nat) :
    Option String × List CaseRec :=
  let endNum := startNum + total
  let out := recursiveHelper cap clock env pfx limit endNum fuel startNum [] false
  (none, out.final)

/-- One aggregation bucket of `utils.group`:
`{items, total, type, date, unix}`. -/
structure Bucket where
  items : List CaseRec
  total : Nat
  type : String
  date : String
  unix : Option Nat
deriving DecidableEq, Repr

/-- `_.set(acc, dateString + "." + type, value)` over the bucket table:
replace the entry at the key, or append a new entry (JavaScript object
keys are unique and keep insertion order). -/
def setBucket (key : String × String) (b : Bucket) :
    List ((String × String) × Bucket) → List ((String × String) × Bucket)
  | [] => [(key, b)]
  | p :: rest => if p.1 == key then (key, b) :: rest else p :: setBucket key b rest

/-- Bucket lookup, `_.get(acc, dateString + "." + type, default)`. -/
def findBucket (key : String × String)
    (acc : List ((String × String) × Bucket)) : Option Bucket :=
  (acc.find? (fun p => p.1 == key)).map (fun p => p.2)

/-- The aggregation key of one record, after the `_.get` defaults of
`utils.group`: the date label (`date.string`, defaulting to
`moment().format(...)` when the record has no date, as for NEXIST
records) and the type. -/
def bucketKey (cap : MomentCap) (clock : Nat) (item : CaseRec) : String × String :=
  (match item.date with
   | some d => d.str
   | none => fmtMoment cap (Moment.valid clock), item.type)

/-- One step of the `_.reduce` in `utils.group`
(src/unnamed/part_001 lines 279-299): fetch the bucket at
`dateString + "." + type` (or the fresh default), push the item, bump the
total, and set it back. -/
def groupStep (cap : MomentCap) (clock : Nat)
    (acc : List ((String × String) × Bucket)) (item : CaseRec) :
    List ((String × String) × Bucket) :=
  let date : Moment := match item.date with
    | some d => d.date
    | none => Moment.valid clock
  let key := bucketKey cap clock item
  let value : Bucket := match findBucket key acc with
    | some b => ⟨b.items ++ [item], b.total + 1, b.type, b.date, b.unix⟩
    | none => ⟨[item], 1, item.type, key.1, unixOf date⟩
  setBucket key value acc

/-- `utils.group(res)` (src/unnamed/part_001 lines 279-299). -/
def group (cap : MomentCap) (clock : Nat) (res : List CaseRec) :
    List ((String × String) × Bucket) :=
  res.foldl (groupStep cap clock) []

/-- The sum of the per-bucket totals. -/
def sumTotals (acc : List ((String × String) × Bucket)) : Nat :=
  (acc.map (fun p => p.2.total)).sum

/-- Every item stored in a bucket has that bucket's key. -/
def keysOk (cap : MomentCap) (clock : Nat)
    (acc : List ((String × String) × Bucket)) : Prop :=
  ∀ p ∈ acc, ∀ x ∈ p.2.items, bucketKey cap clock x = p.1

/-- A fixed moment capability used for concrete evaluations: the parser
never succeeds and the formatter prints the epoch value. -/
def cap0 : MomentCap := ⟨fun _ => none, fun t => natToString t⟩

/-- A concrete outcome environment in which exactly the identifier
`A0000000001` produces an extraction failure with the access-violation
marker (classified BLOCKED). -/
def env1 : String → Option ExtractResult :=
  fun id => if id = "A0000000001" then some (.fail .BLOCKED) else none

/-- A concrete result record used in witness instances. -/
def rec0 : CaseRec := ⟨some "X", "APPROVED", none, none⟩

/-- The numeric value of a big-endian digit list. -/
def valD (ds : List Nat) : Nat := ds.foldl (fun a d => 10 * a + d) 0

/-- The digit list of `n` padded with leading zeros to length `size`
(the digit-level counterpart of `pad`). -/
def paddedDigits (n size : Nat) : List Nat :=
  List.replicate (size - (digitsOf n).length) 0 ++ digitsOf n

theorem foldl_val_from (ds : List Nat) : ∀ a : Nat,
    ds.foldl (fun a d => 10 * a + d) a = a * 10 ^ ds.length + valD ds := by
  induction ds with
  | nil => intro a; simp [valD]
  | cons d ds ih =>
    intro a
    have hv : valD (d :: ds) = d * 10 ^ ds.length + valD ds := by
      show List.foldl _ (10 * 0 + d) ds = _
      rw [show 10 * 0 + d = d by ring, ih d]
    simp only [List.foldl_cons, List.length_cons, hv, ih (10 * a + d)]
    ring

theorem valD_cons (d : Nat) (ds : List Nat) :
    valD (d :: ds) = d * 10 ^ ds.length + valD ds := by
  show List.foldl _ (10 * 0 + d) ds = _
  rw [show 10 * 0 + d = d by ring, foldl_val_from ds d]

theorem valD_lt_pow (ds : List Nat) (h : ∀ d ∈ ds, d < 10) :
    valD ds < 10 ^ ds.length := by
  induction ds with
  | nil => simp [valD]
  | cons d ds ih =>
    rw [valD_cons, List.length_cons, pow_succ]
    have hd : d < 10 := h d (List.mem_cons_self d ds)
    have hds : valD ds < 10 ^ ds.length := ih (fun x hx => h x (List.mem_cons_of_mem d hx))
    calc d * 10 ^ ds.length + valD ds
        < d * 10 ^ ds.length + 10 ^ ds.length := by omega
      _ = (d + 1) * 10 ^ ds.length := by ring
      _ ≤ 10 * 10 ^ ds.length := Nat.mul_le_mul_right _ (by omega)
      _ = 10 ^ ds.length * 10 := by ring

theorem valD_append_singleton (ds : List Nat) (d : Nat) :
    valD (ds ++ [d]) = 10 * valD ds + d := by
  simp [valD, List.foldl_append]

theorem valD_replicate_zero (k : Nat) (ds : List Nat) :
    valD (List.replicate k 0 ++ ds) = valD ds := by
  induction k with
  | zero => simp
  | succ k ih =>
    rw [List.replicate_succ, List.cons_append]
    show List.foldl _ (10 * 0 + 0) _ = _
    rw [show 10 * 0 + 0 = 0 from rfl]
    exact ih

theorem toDigitsBE_lt10 : ∀ fuel n, ∀ d ∈ toDigitsBE fuel n, d < 10 := by
  intro fuel
  induction fuel with
  | zero => intro n d hd; simp [toDigitsBE] at hd
  | succ fuel ih =>
    intro n d hd
    by_cases h : n < 10
    · simp [toDigitsBE, h] at hd; omega
    · simp only [toDigitsBE, if_neg h, List.mem_append, List.mem_singleton] at hd
      rcases hd with h1 | h1
      · exact ih _ _ h1
      · subst h1; exact Nat.mod_lt _ (by omega)

theorem toDigitsBE_val : ∀ fuel n, n < 10 ^ fuel → valD (toDigitsBE fuel n) = n := by
  intro fuel
  induction fuel with
  | zero => intro n hn; interval_cases n; simp [toDigitsBE, valD]
  | succ fuel ih =>
    intro n hn
    by_cases h : n < 10
    · simp [toDigitsBE, h, valD]
    · rw [toDigitsBE, if_neg h, valD_append_singleton]
      have hdiv : n / 10 < 10 ^ fuel := by
        rw [Nat.div_lt_iff_lt_mul (by omega)]
        calc n < 10 ^ (fuel + 1) := hn
          _ = 10 ^ fuel * 10 := by rw [pow_succ]
      rw [ih (n / 10) hdiv]
      omega

theorem toDigitsBE_len_le : ∀ fuel n k, 0 < k → n < 10 ^ k →
    (toDigitsBE fuel n).length ≤ k := by
  intro fuel
  induction fuel with
  | zero => intro n k _ _; simp [toDigitsBE]
  | succ fuel ih =>
    intro n k hk hn
    by_cases h : n < 10
    · simp [toDigitsBE, h]; omega
    · rw [toDigitsBE, if_neg h, List.length_append, List.length_singleton]
      match k, hk with
      | 1, _ => exfalso; rw [pow_one] at hn; omega
      | k + 2, _ =>
        have hdiv : n / 10 < 10 ^ (k + 1) := by
          rw [Nat.div_lt_iff_lt_mul (by omega)]
          calc n < 10 ^ (k + 2) := hn
            _ = 10 ^ (k + 1) * 10 := by rw [pow_succ]
        have := ih (n / 10) (k + 1) (by omega) hdiv
        omega

theorem digitsOf_val (n : Nat) : valD (digitsOf n) = n := by
  apply toDigitsBE_val
  calc n < 10 ^ n := Nat.lt_pow_self (by omega) n
    _ ≤ 10 ^ (n + 1) := Nat.pow_le_pow_right (by omega) (by omega)

theorem digitsOf_lt10 (n : Nat) : ∀ d ∈ digitsOf n, d < 10 :=
  toDigitsBE_lt10 (n + 1) n

theorem digitsOf_len_le {n k : Nat} (hk : 0 < k) (hn : n < 10 ^ k) :
    (digitsOf n).length ≤ k :=
  toDigitsBE_len_le (n + 1) n k hk hn

theorem padGo_eq (size : Nat) : ∀ fuel (s : String), size ≤ s.length + fuel →
    padGo size fuel s = ⟨List.replicate (size - s.length) '0' ++ s.data⟩ := by
  intro fuel
  induction fuel with
  | zero =>
    intro s h
    have h0 : size - s.length = 0 := by omega
    simp [padGo, h0]
  | succ fuel ih =>
    intro s h
    rw [padGo]
    by_cases hlt : s.length < size
    · have h01 : ("0" : String).length = 1 := rfl
      rw [if_pos hlt, ih ("0" ++ s) (by rw [String.length_append, h01]; omega)]
      have hdata : ("0" ++ s).data = '0' :: s.data := by
        rw [String.data_append]; rfl
      have hlen : ("0" ++ s).length = s.length + 1 := by
        rw [String.length_append, h01]; omega
      rw [hdata, hlen]
      obtain ⟨m, hm⟩ : ∃ m, size - s.length = m + 1 := ⟨size - s.length - 1, by omega⟩
      have hm2 : size - (s.length + 1) = m := by omega
      rw [hm, hm2]
      have : List.replicate m '0' ++ '0' :: s.data
          = List.replicate (m + 1) '0' ++ s.data := by
        rw [List.replicate_succ', List.append_assoc]
        rfl
      rw [this]
    · rw [if_neg hlt]
      have h0 : size - s.length = 0 := by omega
      simp [h0]

theorem natToString_data (n : Nat) :
    (natToString n).data = (digitsOf n).map Nat.digitChar := rfl

theorem natToString_length (n : Nat) :
    (natToString n).length = (digitsOf n).length := by
  show ((digitsOf n).map Nat.digitChar).length = _
  simp

theorem pad_data (n size : Nat) :
    (pad n size).data = (paddedDigits n size).map Nat.digitChar := by
  rw [pad, padGo_eq size size (natToString n) (by omega), natToString_length,
    natToString_data, paddedDigits, List.map_append, List.map_replicate]
  rfl

theorem pad_length (n size : Nat) (h : (digitsOf n).length ≤ size) :
    (pad n size).length = size := by
  have : (pad n size).length = (pad n size).data.length := rfl
  rw [this, pad_data]
  simp [paddedDigits]
  omega

theorem paddedDigits_val (n size : Nat) : valD (paddedDigits n size) = n := by
  rw [paddedDigits, valD_replicate_zero, digitsOf_val]

theorem paddedDigits_lt10 (n size : Nat) : ∀ d ∈ paddedDigits n size, d < 10 := by
  intro d hd
  rw [paddedDigits, List.mem_append] at hd
  rcases hd with h | h
  · have := List.eq_of_mem_replicate h
    omega
  · exact digitsOf_lt10 n d h

theorem paddedDigits_length (n size : Nat) (h : (digitsOf n).length ≤ size) :
    (paddedDigits n size).length = size := by
  simp [paddedDigits]
  omega

theorem digitChar_lt_iff : ∀ d, d < 10 → ∀ e, e < 10 →
    (Nat.digitChar d < Nat.digitChar e ↔ d < e) := by decide

theorem lex_map_digitChar : ∀ ds es : List Nat, ds.length = es.length →
    (∀ d ∈ ds, d < 10) → (∀ e ∈ es, e < 10) → valD ds < valD es →
    List.Lex (· < ·) (ds.map Nat.digitChar) (es.map Nat.digitChar) := by
  intro ds
  induction ds with
  | nil =>
    intro es hlen _ _ hv
    cases es with
    | nil => simp [valD] at hv
    | cons e es => simp at hlen
  | cons d ds ih =>
    intro es hlen hds hes hv
    cases es with
    | nil => simp at hlen
    | cons e es =>
      have hL : ds.length = es.length := by simpa using hlen
      have hd : d < 10 := hds d (List.mem_cons_self d ds)
      have he : e < 10 := hes e (List.mem_cons_self e es)
      simp only [List.map_cons]
      rcases Nat.lt_trichotomy d e with hde | hde | hde
      · exact List.Lex.rel ((digitChar_lt_iff d hd e he).mpr hde)
      · subst hde
        apply List.Lex.cons
        apply ih es hL (fun x hx => hds x (List.mem_cons_of_mem d hx))
          (fun x hx => hes x (List.mem_cons_of_mem d hx))
        rw [valD_cons, valD_cons, hL] at hv
        omega
      · exfalso
        rw [valD_cons, valD_cons, hL] at hv
        have h1 : valD es < 10 ^ es.length :=
          valD_lt_pow es (fun x hx => hes x (List.mem_cons_of_mem e hx))
        have h2 : (e + 1) * 10 ^ es.length ≤ d * 10 ^ es.length :=
          Nat.mul_le_mul_right _ (by omega)
        have h3 : (e + 1) * 10 ^ es.length = e * 10 ^ es.length + 10 ^ es.length := by
          ring
        omega

theorem lex_append_left (pre : List Char) {xs ys : List Char}
    (h : List.Lex (· < ·) xs ys) :
    List.Lex (· < ·) (pre ++ xs) (pre ++ ys) := by
  induction pre with
  | nil => simpa
  | cons c pre ih => exact List.Lex.cons ih

theorem pad_lt_pad {m n size : Nat} (hmn : m < n) (hn : n < 10 ^ size)
    (hs : 0 < size) : pad m size < pad n size := by
  rw [String.lt_iff_toList_lt]
  show List.Lex (· < ·) (pad m size).data ((pad n size).data)
  rw [pad_data, pad_data]
  apply lex_map_digitChar
  · rw [paddedDigits_length m size (digitsOf_len_le hs (by omega)),
      paddedDigits_length n size (digitsOf_len_le hs hn)]
  · exact paddedDigits_lt10 m size
  · exact paddedDigits_lt10 n size
  · rw [paddedDigits_val, paddedDigits_val]; exact hmn

theorem getParams_length (pfx : String) (start number : Nat) :
    (getParams pfx start number).length = number := by
  simp [getParams]

theorem getParams_get (pfx : String) (start number i : Nat)
    (h : i < (getParams pfx start number).length) :
    (getParams pfx start number).get ⟨i, h⟩ = pfx ++ pad (start + i) Const.caseNumLength := by
  simp only [getParams, List.get_eq_getElem, List.getElem_map]
  rw [List.getElem_range]

theorem getParams_append (pfx : String) (a m n : Nat) :
    getParams pfx a m ++ getParams pfx (a + m) n = getParams pfx a (m + n) := by
  unfold getParams
  rw [List.range_add, List.map_append, List.map_map]
  congr 1
  apply List.map_congr_left
  intro i _
  simp only [Function.comp_apply]
  congr 2
  omega

theorem recursiveHelper_stop (cap : MomentCap) (clock : Nat)
    (env : String → Option ExtractResult) (pfx : String)
    (w endNum fuel current : Nat) (acc : List CaseRec) (blocked : Bool)
    (h : endNum ≤ current ∨ blocked = true) :
    recursiveHelper cap clock env pfx w endNum fuel current acc blocked
      = ⟨[], acc, blocked⟩ := by
  cases fuel with
  | zero => rfl
  | succ fuel => rw [recursiveHelper, if_pos h]

theorem recursiveHelper_step (cap : MomentCap) (clock : Nat)
    (env : String → Option ExtractResult) (pfx : String)
    (w endNum fuel current : Nat) (acc : List CaseRec) (blocked : Bool)
    (h : ¬(endNum ≤ current ∨ blocked = true)) :
    recursiveHelper cap clock env pfx w endNum (fuel + 1) current acc blocked
      = (let params := getParams pfx current w
         let rest := recursiveHelper cap clock env pfx w endNum fuel
           (current + w) (acc ++ params.map (lookupRec cap clock env))
           (blocked || signalIn cap clock env params)
         ⟨params ++ rest.issued, rest.final, rest.blocked⟩) := by
  rw [recursiveHelper, if_neg h]

theorem ceil_step (w n : Nat) (hw : 0 < w) (hn : 0 < n) :
    (n + w - 1) / w = (n - w + w - 1) / w + 1 := by
  by_cases h : n ≤ w
  · have h1 : n - w = 0 := by omega
    rw [h1]
    have h2 : (n + w - 1) / w = 1 := Nat.div_eq_of_lt_le (by omega) (by omega)
    have h3 : (0 + w - 1) / w = 0 := Nat.div_eq_of_lt (by omega)
    omega
  · have h1 : n + w - 1 = (n - w + w - 1) + w := by omega
    rw [h1, Nat.add_div_right _ hw]

theorem noblock_run (cap : MomentCap) (clock : Nat)
    (env : String → Option ExtractResult) (pfx : String) (w endNum : Nat)
    (hw : 0 < w)
    (hnb : ∀ id, lookupBlocks cap clock env id = false) :
    ∀ fuel current acc, endNum ≤ current + fuel →
      recursiveHelper cap clock env pfx w endNum fuel current acc false =
        ⟨getParams pfx current (w * ((endNum - current + w - 1) / w)),
         acc ++ (getParams pfx current (w * ((endNum - current + w - 1) / w))).map
           (lookupRec cap clock env),
         false⟩ := by
  intro fuel
  induction fuel with
  | zero =>
    intro current acc h
    have h1 : endNum - current = 0 := by omega
    have h2 : (0 + w - 1) / w = 0 := Nat.div_eq_of_lt (by omega)
    rw [h1, h2, Nat.mul_zero]
    show recursiveHelper cap clock env pfx w endNum 0 current acc false = _
    simp [recursiveHelper, getParams]
  | succ fuel ih =>
    intro current acc h
    by_cases hstop : endNum ≤ current
    · have h1 : endNum - current = 0 := by omega
      have h2 : (0 + w - 1) / w = 0 := Nat.div_eq_of_lt (by omega)
      rw [h1, h2, Nat.mul_zero]
      rw [recursiveHelper_stop cap clock env pfx w endNum (fuel + 1) current acc false
        (Or.inl hstop)]
      simp [getParams]
    · rw [recursiveHelper_step cap clock env pfx w endNum fuel current acc false
        (by simp [hstop])]
      have hsig : signalIn cap clock env (getParams pfx current w) = false := by
        simp only [signalIn, List.any_eq_false]
        intro id _
        simp [hnb id]
      simp only [hsig, Bool.or_false]
      rw [ih (current + w) (acc ++ (getParams pfx current w).map (lookupRec cap clock env))
        (by omega)]
      have hstepc : (endNum - current + w - 1) / w
          = (endNum - (current + w) + w - 1) / w + 1 := by
        have : endNum - (current + w) = endNum - current - w := by omega
        rw [this]
        exact ceil_step w (endNum - current) hw (by omega)
      rw [hstepc]
      have hmul : w * ((endNum - (current + w) + w - 1) / w + 1)
          = w + w * ((endNum - (current + w) + w - 1) / w) := by ring
      rw [hmul, ← getParams_append pfx current w
        (w * ((endNum - (current + w) + w - 1) / w))]
      simp [List.map_append, List.append_assoc]

theorem blocked_stops (cap : MomentCap) (clock : Nat)
    (env : String → Option ExtractResult) (pfx : String) (w endNum : Nat)
    (hw : 0 < w) :
    ∀ k fuel current acc, endNum ≤ current + fuel →
      current + k * w < endNum →
      signalIn cap clock env (getParams pfx (current + k * w) w) = true →
      (∀ j, j < k → signalIn cap clock env (getParams pfx (current + j * w) w) = false) →
      recursiveHelper cap clock env pfx w endNum fuel current acc false =
        ⟨getParams pfx current ((k + 1) * w),
         acc ++ (getParams pfx current ((k + 1) * w)).map (lookupRec cap clock env),
         true⟩ := by
  intro k
  induction k with
  | zero =>
    intro fuel current acc hfuel hin hsig _
    rw [Nat.zero_mul, Nat.add_zero] at hin hsig
    obtain ⟨f, rfl⟩ : ∃ f, fuel = f + 1 := ⟨fuel - 1, by omega⟩
    rw [recursiveHelper_step cap clock env pfx w endNum f current acc false
      (by simp; omega)]
    simp only [Bool.false_or, hsig]
    rw [recursiveHelper_stop cap clock env pfx w endNum f (current + w) _ true
      (Or.inr rfl)]
    rw [Nat.one_mul]
    simp
  | succ k ih =>
    intro fuel current acc hfuel hin hsig hprev
    have hcur : current < endNum := by
      have : current ≤ current + (k + 1) * w := by omega
      omega
    obtain ⟨f, rfl⟩ : ∃ f, fuel = f + 1 := ⟨fuel - 1, by omega⟩
    rw [recursiveHelper_step cap clock env pfx w endNum f current acc false
      (by simp; omega)]
    have hsig0 : signalIn cap clock env (getParams pfx current w) = false := by
      have := hprev 0 (by omega)
      rwa [Nat.zero_mul, Nat.add_zero] at this
    simp only [hsig0, Bool.or_false]
    have harith : ∀ j : Nat, current + w + j * w = current + (j + 1) * w := by
      intro j; ring
    rw [ih f (current + w) (acc ++ (getParams pfx current w).map (lookupRec cap clock env))
      (by omega)
      (by rw [harith k]; have : (k + 1) * w ≤ (k + 1 + 1) * w := by
            apply Nat.mul_le_mul_right; omega
          omega)
      (by rw [harith k]; exact hsig)
      (by intro j hj; rw [harith j]; exact hprev (j + 1) (by omega))]
    have hcomb : getParams pfx current w ++ getParams pfx (current + w) ((k + 1) * w)
        = getParams pfx current ((k + 1 + 1) * w) := by
      rw [getParams_append]
      congr 1
      ring
    simp only [← hcomb]
    simp [List.map_append, List.append_assoc]

theorem findBucket_some_mem {key : String × String} {b : Bucket}
    {acc : List ((String × String) × Bucket)}
    (h : findBucket key acc = some b) : (key, b) ∈ acc := by
  rw [findBucket] at h
  cases hf : acc.find? (fun p => p.1 == key) with
  | none => rw [hf] at h; simp at h
  | some p =>
    rw [hf] at h
    simp at h
    have hp := List.find?_some hf
    have hmem := List.mem_of_find?_eq_some hf
    have hp1 : p.1 = key := by simpa using hp
    have : p = (key, b) := by
      cases p with
      | mk k v => simp_all
    rwa [this] at hmem

theorem findBucket_setBucket_same (key : String × String) (v : Bucket) :
    ∀ acc, findBucket key (setBucket key v acc) = some v := by
  intro acc
  induction acc with
  | nil => simp [setBucket, findBucket]
  | cons p rest ih =>
    rw [setBucket]
    cases hp : (p.1 == key) with
    | true =>
      rw [if_pos rfl]
      simp [findBucket, List.find?_cons]
    | false =>
      rw [if_neg (by simp [hp])]
      rw [findBucket, List.find?_cons]
      simp only [hp]
      exact ih

theorem findBucket_setBucket_other {key' key : String × String} (v : Bucket)
    (hne : key' ≠ key) :
    ∀ acc, findBucket key' (setBucket key v acc) = findBucket key' acc := by
  intro acc
  have hkk : (key == key') = false := beq_eq_false_iff_ne.mpr (fun h => hne h.symm)
  induction acc with
  | nil => simp [setBucket, findBucket, List.find?_cons, hkk]
  | cons p rest ih =>
    rw [setBucket]
    cases hp : (p.1 == key) with
    | true =>
      rw [if_pos rfl]
      have hp1 : p.1 = key := by simpa using hp
      rw [findBucket, findBucket, List.find?_cons, List.find?_cons, hp1]
      simp only [hkk]
    | false =>
      rw [if_neg (by simp [hp])]
      rw [findBucket, findBucket, List.find?_cons, List.find?_cons]
      cases hq : (p.1 == key') with
      | true => rfl
      | false =>
        simp only
        exact ih

theorem setBucket_mem {q : (String × String) × Bucket} (key : String × String)
    (v : Bucket) :
    ∀ acc, q ∈ setBucket key v acc → q = (key, v) ∨ q ∈ acc := by
  intro acc
  induction acc with
  | nil => intro h; simp [setBucket] at h; left; exact h
  | cons p rest ih =>
    intro h
    rw [setBucket] at h
    cases hp : (p.1 == key) with
    | true =>
      rw [if_pos hp] at h
      rcases List.mem_cons.mp h with h1 | h1
      · left; exact h1
      · right; exact List.mem_cons_of_mem p h1
    | false =>
      rw [if_neg (by simp [hp])] at h
      rcases List.mem_cons.mp h with h1 | h1
      · right; rw [h1]; exact List.mem_cons_self p rest
      · rcases ih h1 with h2 | h2
        · left; exact h2
        · right; exact List.mem_cons_of_mem p h2

theorem setBucket_of_find_none (key : String × String) (v : Bucket) :
    ∀ acc, findBucket key acc = none → setBucket key v acc = acc ++ [(key, v)] := by
  intro acc
  induction acc with
  | nil => intro _; rfl
  | cons p rest ih =>
    intro h
    rw [findBucket, List.find?_cons] at h
    rw [setBucket]
    cases hp : (p.1 == key) with
    | true => simp only [hp] at h; simp at h
    | false =>
      rw [if_neg (by simp [hp])]
      simp only [hp] at h
      rw [ih h]
      simp

theorem sumTotals_setBucket_found (key : String × String) (item : CaseRec) :
    ∀ acc b, findBucket key acc = some b →
      sumTotals (setBucket key ⟨b.items ++ [item], b.total + 1, b.type, b.date, b.unix⟩ acc)
        = sumTotals acc + 1 := by
  intro acc
  induction acc with
  | nil => intro b h; simp [findBucket] at h
  | cons p rest ih =>
    intro b h
    rw [findBucket, List.find?_cons] at h
    rw [setBucket]
    cases hp : (p.1 == key) with
    | true =>
      rw [if_pos rfl]
      simp only [hp] at h
      have hb : p.2 = b := by simpa using h
      simp only [sumTotals, List.map_cons, List.sum_cons]
      rw [← hb]
      omega
    | false =>
      rw [if_neg (by simp [hp])]
      simp only [hp] at h
      have hrest := ih b h
      simp only [sumTotals, List.map_cons, List.sum_cons] at *
      omega

theorem sumTotals_append (a b : List ((String × String) × Bucket)) :
    sumTotals (a ++ b) = sumTotals a + sumTotals b := by
  simp [sumTotals]

theorem sumTotals_groupStep (cap : MomentCap) (clock : Nat)
    (acc : List ((String × String) × Bucket)) (item : CaseRec) :
    sumTotals (groupStep cap clock acc item) = sumTotals acc + 1 := by
  rw [groupStep]
  cases hf : findBucket (bucketKey cap clock item) acc with
  | none =>
    simp only [hf]
    rw [setBucket_of_find_none _ _ acc hf, sumTotals_append]
    simp [sumTotals]
  | some b =>
    simp only [hf]
    exact sumTotals_setBucket_found _ item acc b hf

theorem sumTotals_group_go (cap : MomentCap) (clock : Nat) :
    ∀ (l : List CaseRec) (acc : List ((String × String) × Bucket)),
      sumTotals (l.foldl (groupStep cap clock) acc) = sumTotals acc + l.length := by
  intro l
  induction l with
  | nil => intro acc; simp
  | cons x l ih =>
    intro acc
    rw [List.foldl_cons, ih (groupStep cap clock acc x), sumTotals_groupStep]
    simp
    omega

theorem keysOk_groupStep {cap : MomentCap} {clock : Nat}
    {acc : List ((String × String) × Bucket)} (h : keysOk cap clock acc)
    (item : CaseRec) : keysOk cap clock (groupStep cap clock acc item) := by
  intro q hq x hx
  rw [groupStep] at hq
  cases hf : findBucket (bucketKey cap clock item) acc with
  | none =>
    simp only [hf] at hq
    rcases setBucket_mem _ _ acc hq with h1 | h1
    · subst h1
      simp only [List.mem_singleton] at hx
      rw [hx]
    · exact h q h1 x hx
  | some b =>
    simp only [hf] at hq
    rcases setBucket_mem _ _ acc hq with h1 | h1
    · subst h1
      simp only at hx
      rcases List.mem_append.mp hx with h2 | h2
      · have hmem := findBucket_some_mem hf
        exact h _ hmem x h2
      · simp only [List.mem_singleton] at h2
        rw [h2]
    · exact h q h1 x hx

theorem keysOk_group_go (cap : MomentCap) (clock : Nat) :
    ∀ (l : List CaseRec) (acc : List ((String × String) × Bucket)),
      keysOk cap clock acc → keysOk cap clock (l.foldl (groupStep cap clock) acc) := by
  intro l
  induction l with
  | nil => intro acc h; exact h
  | cons x l ih => intro acc h; exact ih _ (keysOk_groupStep h x)

theorem group_mem_go (cap : MomentCap) (clock : Nat) :
    ∀ (l : List CaseRec) (acc : List ((String × String) × Bucket)) (r : CaseRec),
      (r ∈ l ∨ ∃ b, findBucket (bucketKey cap clock r) acc = some b ∧ r ∈ b.items) →
      ∃ b, findBucket (bucketKey cap clock r) (l.foldl (groupStep cap clock) acc) = some b
        ∧ r ∈ b.items := by
  intro l
  induction l with
  | nil =>
    intro acc r h
    rcases h with h | h
    · simp at h
    · exact h
  | cons x l ih =>
    intro acc r h
    rw [List.foldl_cons]
    apply ih (groupStep cap clock acc x) r
    by_cases hr : r ∈ l
    · left; exact hr
    · right
      have hcase : r = x
          ∨ (∃ b, findBucket (bucketKey cap clock r) acc = some b ∧ r ∈ b.items) := by
        rcases h with h | h
        · rcases List.mem_cons.mp h with h1 | h1
          · left; exact h1
          · exact absurd h1 hr
        · right; exact h
      rcases hcase with rfl | ⟨b, hb, hrb⟩
      · rw [groupStep]
        cases hf : findBucket (bucketKey cap clock r) acc with
        | none =>
          simp only [hf]
          refine ⟨_, findBucket_setBucket_same _ _ acc, ?_⟩
          simp
        | some b =>
          simp only [hf]
          refine ⟨_, findBucket_setBucket_same _ _ acc, ?_⟩
          simp
      · rw [groupStep]
        by_cases hkey : bucketKey cap clock x = bucketKey cap clock r
        · rw [hkey]
          cases hf : findBucket (bucketKey cap clock r) acc with
          | none => rw [hf] at hb; simp at hb
          | some b' =>
            rw [hf] at hb
            simp only [Option.some_inj] at hb
            subst hb
            simp only [hf]
            refine ⟨_, findBucket_setBucket_same _ _ acc, ?_⟩
            simp [hrb]
        · cases hf : findBucket (bucketKey cap clock x) acc with
          | none =>
            simp only [hf]
            refine ⟨b, ?_, hrb⟩
            rw [findBucket_setBucket_other _ (fun hc => hkey hc.symm) acc]
            exact hb
          | some bx =>
            simp only [hf]
            refine ⟨b, ?_, hrb⟩
            rw [findBucket_setBucket_other _ (fun hc => hkey hc.symm) acc]
            exact hb

theorem group_sum (cap : MomentCap) (clock : Nat) (res : List CaseRec) :
    sumTotals (group cap clock res) = res.length := by
  rw [group, sumTotals_group_go]
  simp [sumTotals]

theorem group_keysOk (cap : MomentCap) (clock : Nat) (res : List CaseRec) :
    keysOk cap clock (group cap clock res) := by
  rw [group]
  apply keysOk_group_go
  intro p hp
  simp at hp

theorem group_mem (cap : MomentCap) (clock : Nat) (res : List CaseRec)
    (r : CaseRec) (hr : r ∈ res) :
    ∃ b, findBucket (bucketKey cap clock r) (group cap clock res) = some b
      ∧ r ∈ b.items := by
  rw [group]
  exact group_mem_go cap clock res [] r (Or.inl hr)

theorem group_unique (cap : MomentCap) (clock : Nat) (res : List CaseRec)
    (r : CaseRec) (k : String × String) (b : Bucket)
    (hfind : findBucket k (group cap clock res) = some b) (hmem : r ∈ b.items) :
    k = bucketKey cap clock r := by
  have hk := group_keysOk cap clock res
  have := hk (k, b) (findBucket_some_mem hfind) r hmem
  exact this.symm

theorem str_append_lt (s : String) {t u : String} (h : t < u) : s ++ t < s ++ u := by
  rw [String.lt_iff_toList_lt] at h ⊢
  show List.Lex (· < ·) (s ++ t).data ((s ++ u).data)
  rw [String.data_append, String.data_append]
  exact lex_append_left s.data h

/-- Claim C1: for every identifier and every classified outcome of the
transport and extraction capabilities (transport error, extraction
failure of any of its three classified kinds, or classified success),
the Case Poller's lookup invokes its callback with exactly one result
record and a null error — it never raises — and on transport failure the
record has status code "FAILED", occurredAt equal to the current time,
and empty raw fields. -/
theorem claim_C1 (cap : MomentCap) (clock : Nat)
    (outcome : Option ExtractResult) (caseNum : String) :
    (retrieveCaseStatus cap clock outcome caseNum).err = none
    ∧ retrieveCaseStatus cap clock none caseNum =
        ⟨none, ⟨some caseNum, "FAILED", some ⟨Moment.valid clock, cap.fmt clock⟩,
          some ⟨none, none⟩⟩, false⟩ := by
  constructor
  · cases outcome with
    | none => rfl
    | some e =>
      cases e with
      | fail t => cases t <;> rfl
      | ok text title => rfl
  · rfl

/-- Claim C2: if during the k-th batch an extraction failure classified
as BLOCKED (the access-violation marker) is observed — and no earlier
batch observed one — the process-wide blocked flag ends set and the
Batch Scheduler issues exactly the batches up to and including the k-th
and never another batch afterwards, while every record collected in the
issued batches is kept in the final accumulator, whose aggregation
accounts for every one of them. -/
theorem claim_C2 (cap : MomentCap) (clock : Nat)
    (env : String → Option ExtractResult) (pfx : String)
    (w endNum k fuel current : Nat) (acc : List CaseRec)
    (hw : 0 < w) (hfuel : endNum ≤ current + fuel)
    (hin : current + k * w < endNum)
    (hsig : signalIn cap clock env (getParams pfx (current + k * w) w) = true)
    (hprev : ∀ j, j < k →
      signalIn cap clock env (getParams pfx (current + j * w) w) = false) :
    recursiveHelper cap clock env pfx w endNum fuel current acc false =
      ⟨getParams pfx current ((k + 1) * w),
       acc ++ (getParams pfx current ((k + 1) * w)).map (lookupRec cap clock env),
       true⟩
    ∧ sumTotals (group cap clock
        (recursiveHelper cap clock env pfx w endNum fuel current acc false).final)
      = (recursiveHelper cap clock env pfx w endNum fuel current acc false).final.length := by
  refine ⟨blocked_stops cap clock env pfx w endNum hw k fuel current acc hfuel hin hsig hprev,
    group_sum cap clock _⟩

theorem claim_C2_witness :
    (0 < 1 ∧ 3 ≤ 0 + 5 ∧ 0 + 1 * 1 < 3
      ∧ signalIn cap0 0 env1 (getParams "A" (0 + 1 * 1) 1) = true)
    ∧ (recursiveHelper cap0 0 env1 "A" 1 3 5 0 [] false).issued
        = getParams "A" 0 ((1 + 1) * 1) := by
  refine ⟨by decide, ?_⟩
  rw [(claim_C2 cap0 0 env1 "A" 1 3 1 5 0 [] (by decide) (by decide) (by decide)
    (by decide) (by decide)).1]

/-- Claim C3 as stated fails: for start 9999999999 and count 2 the two
generated identifiers have different widths — `pad` only pads up to the
minimum width 10 and an eleven-digit number exceeds it — so the
identifiers are not all of fixed width (nor lexicographically
increasing). -/
theorem claim_C3_counterexample :
    getParams "IOE" 9999999999 2 = ["IOE9999999999", "IOE10000000000"]
    ∧ ¬ ("IOE9999999999" : String).length = ("IOE10000000000" : String).length := by
  constructor
  · decide
  · decide

/-- Claim C3 (amended): for every non-empty prefix, start and positive
count with start + count at most 10^10 (all numbers fit in the pad
width), the generator yields exactly count identifiers, the i-th being
the prefix concatenated with start + i zero-padded to width 10; they are
strictly increasing, pairwise distinct and of the fixed width
prefix-length + 10; the stated scenario holds.  (Without the bound the
i-th-element formula and the count still hold, but identifiers of
numbers beyond ten digits grow wider.) -/
theorem claim_C3 (pfx : String) (start count : Nat)
    (hpfx : pfx ≠ "") (hc : 0 < count) (hb : start + count ≤ 10 ^ 10) :
    (getParams pfx start count).length = count
    ∧ (∀ i (h : i < (getParams pfx start count).length),
        (getParams pfx start count).get ⟨i, h⟩ = pfx ++ pad (start + i) 10)
    ∧ (∀ i j (hi : i < (getParams pfx start count).length)
        (hj : j < (getParams pfx start count).length), i < j →
        (getParams pfx start count).get ⟨i, hi⟩ < (getParams pfx start count).get ⟨j, hj⟩)
    ∧ (getParams pfx start count).Nodup
    ∧ (∀ s ∈ getParams pfx start count, s.length = pfx.length + 10)
    ∧ getParams "IOE" 900677923 3
        = ["IOE0900677923", "IOE0900677924", "IOE0900677925"] := by
  have hlen := getParams_length pfx start count
  have hpadlt : ∀ x y, x < count → y < count → x < y →
      pfx ++ pad (start + x) Const.caseNumLength
        < pfx ++ pad (start + y) Const.caseNumLength := by
    intro x y hx hy hxy
    apply str_append_lt
    exact pad_lt_pad (by omega) (show start + y < 10 ^ 10 by omega)
      (show 0 < 10 by omega)
  refine ⟨hlen, getParams_get pfx start count, ?_, ?_, ?_, by decide⟩
  · intro i j hi hj hij
    rw [getParams_get, getParams_get]
    exact hpadlt i j (by omega) (by omega) hij
  · rw [getParams]
    refine List.Nodup.map_on ?_ (List.nodup_range count)
    intro x hx y hy hxy
    rw [List.mem_range] at hx hy
    by_contra hne
    rcases Nat.lt_or_ge x y with h | h
    · exact absurd hxy (ne_of_lt (hpadlt x y hx hy h))
    · have h2 : y < x := by omega
      exact absurd hxy.symm (ne_of_lt (hpadlt y x hy hx h2))
  · intro s hs
    rw [getParams] at hs
    rw [List.mem_map] at hs
    obtain ⟨i, hi, rfl⟩ := hs
    rw [List.mem_range] at hi
    rw [String.length_append]
    have : (pad (start + i) Const.caseNumLength).length = Const.caseNumLength :=
      pad_length _ _ (digitsOf_len_le (show 0 < 10 by omega)
        (show start + i < 10 ^ 10 by omega))
    rw [this]
    rfl

theorem claim_C3_witness :
    (("IOE" : String) ≠ "" ∧ 0 < 3 ∧ 900677923 + 3 ≤ 10 ^ 10)
    ∧ (getParams "IOE" 900677923 3).length = 3 := by
  refine ⟨by decide, ?_⟩
  exact (claim_C3 "IOE" 900677923 3 (by decide) (by decide) (by decide)).1

/-- Claim C4, evaluated at the failing input: a failure DOM whose first
label carries the receipt-number marker but which has no error-message
heading makes `getErrorType` throw a TypeError instead of classifying
the shape as UNKNOWN, contradicting the function's own doc comment
(return value one of UNKNOWN, BLOCKED, NOT_FOUND); the three documented
branches behave as the claim states. -/
theorem claim_C4_bug :
    getErrorType ⟨some "receipt_number", none⟩
      = Except.error "TypeError: cannot read property split of undefined"
    ∧ getErrorType ⟨some "accessviolation", none⟩ = Except.ok (ErrType.BLOCKED, [])
    ∧ getErrorType ⟨some "receipt_number", some "Validation Error(s)"⟩
      = Except.ok (ErrType.NOT_FOUND, [])
    ∧ getErrorType ⟨some "receipt_number", some "Other text"⟩
      = Except.ok (ErrType.UNKNOWN, ["unknown error type"])
    ∧ getErrorType ⟨some "somethingelse", none⟩
      = Except.ok (ErrType.UNKNOWN, ["unknown error type"]) := by
  refine ⟨rfl, rfl, rfl, rfl, rfl⟩

/-- Claim C5: classification looks the heading up in the status taxonomy
by exact string match — the heading "Case Was Approved" classifies to the
approved status "APPROVED", every taxonomy entry maps to its recorded
type — and any heading not present (for example "Something New")
classifies to "UNKNOWN" with a diagnostic logged naming the unrecognized
heading; an unmapped heading never fails the run (the classifier is a
total function). -/
theorem claim_C5 (cap : MomentCap) (clock : Nat) (text : String) :
    ((infoParser cap clock text "Case Was Approved").1.type = "APPROVED"
      ∧ (infoParser cap clock text "Case Was Approved").2 = [])
    ∧ (∀ p ∈ titleToType, (infoParser cap clock text p.1).1.type = p.2)
    ∧ (∀ title, titleToType.find? (fun p => p.1 == title) = none →
        (infoParser cap clock text title).1.type = "UNKNOWN"
        ∧ (infoParser cap clock text title).2 = ["unknown key " ++ title])
    ∧ ((infoParser cap clock text "Something New").1.type = "UNKNOWN"
      ∧ (infoParser cap clock text "Something New").2
          = ["unknown key Something New"]) := by
  have hentries : ∀ p ∈ titleToType, getType p.1 = (p.2, []) := by decide
  refine ⟨⟨?_, ?_⟩, ?_, ?_, ?_, ?_⟩
  · show (getType "Case Was Approved").1 = "APPROVED"
    decide
  · show (getType "Case Was Approved").2 = []
    decide
  · intro p hp
    show (getType p.1).1 = p.2
    rw [hentries p hp]
  · intro title h
    have hu : getType title = ("UNKNOWN", ["unknown key " ++ title]) := by
      rw [getType, h]
    exact ⟨congrArg Prod.fst hu, congrArg Prod.snd hu⟩
  · show (getType "Something New").1 = "UNKNOWN"
    decide
  · show (getType "Something New").2 = ["unknown key Something New"]
    decide

theorem claim_C5_witness :
    titleToType.find? (fun p => p.1 == "Something New") = none
    ∧ (infoParser cap0 0 "body" "Something New").1.type = "UNKNOWN" := by
  refine ⟨by decide, ?_⟩
  exact ((claim_C5 cap0 0 "body").2.2.1 "Something New" (by decide)).1

/-- Claim C6 as stated fails: a present body text whose leading
comma-delimited date token does not parse yields the invalid moment as
the record's timestamp — `moment(tok, fmt)` does not throw, so the catch
branch that substitutes the current time is not reached — rather than
the current wall-clock time 7. -/
theorem claim_C6_counterexample :
    cap0.parse (dateToken "garbage") = none
    ∧ (infoParser cap0 7 "garbage" "Case Was Approved").1.date.date
        ≠ Moment.valid 7 := by
  exact ⟨rfl, by decide⟩

/-- Claim C6 (amended): a date-parse failure never fails the whole
classification — the record is still produced, with its classified type —
but its timestamp is the invalid moment (formatted label "Invalid
date"), not the current wall-clock time; the current time is substituted
only when the date extraction itself throws, i.e. on the absent-body
path `getDate()` used by the transport-failure record. -/
theorem claim_C6 (cap : MomentCap) (clock : Nat) (text title : String)
    (h : cap.parse (dateToken text) = none) :
    (infoParser cap clock text title).1.date = ⟨Moment.invalid, "Invalid date"⟩
    ∧ (infoParser cap clock text title).1.type = (getType title).1
    ∧ getDate cap clock none = ⟨Moment.valid clock, cap.fmt clock⟩ := by
  refine ⟨?_, rfl, rfl⟩
  show getDate cap clock (some text) = _
  simp only [getDate, h]
  rfl

theorem claim_C6_witness :
    cap0.parse (dateToken "On August 9, 2016, we mailed your card") = none
    ∧ (infoParser cap0 5 "On August 9, 2016, we mailed your card" "T").1.date
        = ⟨Moment.invalid, "Invalid date"⟩ := by
  refine ⟨rfl, ?_⟩
  exact (claim_C6 cap0 5 "On August 9, 2016, we mailed your card" "T" rfl).1

/-- Claim C7 as stated fails: with batch width 2 and count 1 the run
issues two lookups, not one — each batch always submits a full
`intervalSize` of identifiers even when fewer remain before `end`, so
the final batch is never shorter. -/
theorem claim_C7_counterexample :
    (recursiveHelper cap0 0 (fun _ => none) "IOE" 2 1 3 0 [] false).issued
      = ["IOE0000000000", "IOE0000000001"]
    ∧ (recursiveHelper cap0 0 (fun _ => none) "IOE" 2 1 3 0 [] false).issued.length
      ≠ 1 := by
  constructor
  · decide
  · decide

/-- Claim C7 (amended): for every valid configuration (count and width
at least 1) in which no block signal occurs, the run issues lookups in
full batches of exactly the batch width: the numbers queried are
start .. start + w * ceil(count / w) - 1 — exactly the count identifiers
when the width divides the count, and otherwise overshooting past the
end to complete the final batch (the final batch is never shorter) —
and the final accumulator holds exactly the records of the issued
identifiers in order, results being appended and the cursor advanced
only in a batch's completion callback. -/
theorem claim_C7 (cap : MomentCap) (clock : Nat)
    (env : String → Option ExtractResult) (pfx : String)
    (w count startNum fuel : Nat)
    (hw : 0 < w) (hc : 0 < count) (hfuel : count ≤ fuel)
    (hnb : ∀ id, lookupBlocks cap clock env id = false) :
    (recursiveHelper cap clock env pfx w (startNum + count) fuel startNum [] false).issued
      = getParams pfx startNum (w * ((count + w - 1) / w))
    ∧ count ≤ w * ((count + w - 1) / w)
    ∧ w * ((count + w - 1) / w) < count + w
    ∧ (recursiveHelper cap clock env pfx w (startNum + count) fuel startNum [] false).final
      = (getParams pfx startNum (w * ((count + w - 1) / w))).map (lookupRec cap clock env)
    ∧ (recursiveHelper cap clock env pfx w (startNum + count) fuel startNum [] false).blocked
      = false := by
  have h := noblock_run cap clock env pfx w (startNum + count) hw hnb fuel startNum []
    (by omega)
  rw [Nat.add_sub_cancel_left] at h
  have h1 := Nat.div_add_mod (count + w - 1) w
  have h2 := Nat.mod_lt (count + w - 1) hw
  refine ⟨by rw [h], by omega, by omega, by rw [h]; simp, by rw [h]⟩

theorem claim_C7_witness :
    (0 < 2 ∧ 0 < 5 ∧ 5 ≤ 6)
    ∧ (recursiveHelper cap0 0 (fun _ => none) "B" 2 (0 + 5) 6 0 [] false).issued
      = getParams "B" 0 (2 * ((5 + 2 - 1) / 2)) := by
  refine ⟨by decide, ?_⟩
  exact (claim_C7 cap0 0 (fun _ => none) "B" 2 5 0 6 (by decide) (by decide) (by decide)
    (fun id => rfl)).1

/-- Claim C8: for every finite sequence of result records, the sum of
the per-bucket totals produced by the Aggregator's `group` equals the
length of the input sequence, and every input record appears in the
member list of exactly one (date label, status type) bucket. -/
theorem claim_C8 (cap : MomentCap) (clock : Nat) (res : List CaseRec) :
    sumTotals (group cap clock res) = res.length
    ∧ ∀ r ∈ res, ∃! k : String × String,
        ∃ b, findBucket k (group cap clock res) = some b ∧ r ∈ b.items := by
  refine ⟨group_sum cap clock res, ?_⟩
  intro r hr
  obtain ⟨b, hb, hrb⟩ := group_mem cap clock res r hr
  refine ⟨bucketKey cap clock r, ⟨b, hb, hrb⟩, ?_⟩
  rintro k ⟨b', hb', hrb'⟩
  exact group_unique cap clock res r k b' hb' hrb'

theorem claim_C8_witness :
    (rec0 ∈ [rec0])
    ∧ sumTotals (group cap0 0 [rec0]) = 1
    ∧ ∃! k : String × String,
        ∃ b, findBucket k (group cap0 0 [rec0]) = some b ∧ rec0 ∈ b.items := by
  have h := claim_C8 cap0 0 [rec0]
  exact ⟨by simp, h.1, h.2 rec0 (by simp)⟩

/-- Claim C9 (amended): the run performs no validation of its range
parameters — no InvalidRangeError exists anywhere in the program — and
with count 0 (the only Nat rendering of count <= 0) it completes
immediately and successfully before any lookup: no identifier is
submitted, and the final callback receives a null error and an empty
result list.  The generator itself is a pure, deterministic function of
(prefix, start, count). -/
theorem claim_C9 (cap : MomentCap) (clock : Nat)
    (env : String → Option ExtractResult) (pfx : String)
    (startNum w fuel : Nat) :
    run cap clock env pfx startNum 0 w fuel = (none, [])
    ∧ (recursiveHelper cap clock env pfx w (startNum + 0) fuel startNum [] false).issued
      = [] := by
  have hstop := recursiveHelper_stop cap clock env pfx w (startNum + 0) fuel startNum []
    false (Or.inl (by omega))
  constructor
  · have hrun : run cap clock env pfx startNum 0 w fuel
        = (none,
          (recursiveHelper cap clock env pfx w (startNum + 0) fuel startNum [] false).final) :=
      rfl
    rw [hrun, hstop]
  · rw [hstop]

/-- Claim C9 as stated fails: a run invoked with count 0 does not fail
fast with an InvalidRangeError — it completes successfully, handing the
callback a null error and empty results. -/
theorem claim_C9_counterexample :
    run cap0 0 (fun _ => none) "IOE" 900677923 0 10 5 = (none, []) := by
  decide

/-- Claim C10: a lookup whose extraction failure is classified as
not-found returns a record consisting solely of the status field with
code "NEXIST" — no identifier, no timestamp, no raw data (the
`_.extend` with a single argument drops every `defaultReturn` field) —
so the queried case number is absent from the accumulated results for
that item. -/
theorem claim_C10 (cap : MomentCap) (clock : Nat) (caseNum : String) :
    retrieveCaseStatus cap clock (some (ExtractResult.fail ErrType.NOT_FOUND)) caseNum
      = ⟨none, ⟨none, "NEXIST", none, none⟩, false⟩ := rfl
